import Mathlib

/-!
Verification of the pysubs2 subtitle engine core: a shallow embedding of
`ssafile.py` (the `SSAFile` document model with its retiming and style
operations) and `tmp.py` (the TMP plain-timestamp codec), together with
theorems about the behaviour of these operations.

Conventions of the embedding:
* Python byte/character strings become `String` / `List Char`; all text in
  play is ASCII, where the two coincide byte-for-byte.
* Python unbounded integers become `Int` (`ℤ`), counts become `Nat`.
* Python floats (frame rates) become `ℚ`; `round` is modelled as Python 3
  round-half-to-even.
* Stateful methods that may raise become functions returning
  `Except SubsError Unit × SSAFile`: the second component is the document
  state when the call returns or raises.  In the source every raise happens
  before any mutation, which the embedding mirrors by returning the input
  document in each error branch.
* Regular-expression matching of the two concrete patterns in `tmp.py` is
  embedded as deterministic character scanners that implement exactly the
  behaviour of those patterns (the patterns have no ambiguity beyond the
  greedy `\d{1,2}` alternative, which the scanners implement by preferring
  the two-digit reading).
-/

namespace Pysubs2

/-- Modelled from the spec: style record (`ssastyle.py` is not part of the
reviewed sources).  Only the four boolean flags read by the TMP codec are
carried; the remaining scalar attributes play no role in any operation
embedded here. -/
structure SSAStyle where
  italic : Bool
  underline : Bool
  strikeout : Bool
  drawing : Bool
deriving DecidableEq, Repr

/-- Modelled from the spec: the process-wide fallback style
(`SSAStyle.DEFAULT_STYLE`), with every flag off. -/
def DEFAULT_STYLE : SSAStyle := ⟨false, false, false, false⟩

/-- Modelled from the spec: one timed subtitle event (`ssaevent.py` is not
part of the reviewed sources): integer-millisecond `start`/`end`, raw text,
style-name reference and the comment flag.  The Python attribute `end` is
a Lean keyword and is rendered `end_`. -/
structure SSAEvent where
  start : Int
  end_ : Int
  text : String
  style : String
  is_comment : Bool
deriving DecidableEq, Repr

/-- The subtitle document of `ssafile.py`: ordered events, the ordered
style table (a Python `OrderedDict`, embedded as an association list with
unique keys) and free-form metadata. -/
structure SSAFile where
  events : List SSAEvent
  styles : List (String × SSAStyle)
  info : List (String × String)
deriving DecidableEq, Repr

/-- Error taxonomy of the operations embedded here, under the names the
specification uses.  In the Python source `StyleNotFound` is a `KeyError`
and the remaining three are `ValueError`s. -/
inductive SubsError where
  | StyleNotFound
  | StyleNameConflict
  | InvalidStyleName
  | InvalidFramerate
deriving DecidableEq, Repr

/-! ## Time helpers (`pysubs2.time`, modelled from the spec) -/

/-- Modelled from the spec: `make_time` of the time module (not among the
reviewed sources); the canonical representation is integer milliseconds,
so `h` hours, `m` minutes, `s` seconds and `ms` milliseconds collapse to
one millisecond count. -/
def make_time (h m s ms : Int) : Int :=
  h * 3600000 + m * 60000 + s * 1000 + ms

/-- Largest timestamp allowed in TMP, ie. 99:59:59 (`tmp.py`, line 14). -/
def MAX_REPRESENTABLE_TIME : Int := make_time 99 59 59 0

/-- Modelled from the spec: `ms_to_times` of the time module — successive
`divmod` of a non-negative millisecond count into (h, m, s, ms). -/
def ms_to_times (ms : Nat) : Nat × Nat × Nat × Nat :=
  let h := ms / 3600000
  let r1 := ms % 3600000
  let m := r1 / 60000
  let r2 := r1 % 60000
  let s := r2 / 1000
  (h, m, s, r2 % 1000)

/-- Modelled from the spec: `timestamp_to_ms` applied to the groups of
`TIMESTAMP_SHORT`, ie. the `(hours, minutes, seconds)` captured from an
`H{1,2}:MM:SS` clock string, converted to milliseconds. -/
def timestamp_to_ms (h m s : Nat) : Int :=
  make_time h m s 0

/-- Two-digit zero-padded decimal rendering, the `f"{n:02d}"` of
`TmpFormat.ms_to_timestamp`. -/
def pad2 (n : Nat) : String :=
  if n < 10 then "0" ++ Nat.repr n else Nat.repr n

/-- `TmpFormat.ms_to_timestamp` (`tmp.py`, lines 20–29): clamp negative
input to zero, clamp input beyond `MAX_REPRESENTABLE_TIME` to that maximum
(the Boolean in the result records whether the overflow warning was
issued), then render `HH:MM:SS`. -/
def ms_to_timestamp (ms : Int) : String × Bool :=
  let ms1 : Int := if ms < 0 then 0 else ms
  let overflow : Bool := decide (ms1 > MAX_REPRESENTABLE_TIME)
  let ms2 : Int := if ms1 > MAX_REPRESENTABLE_TIME then MAX_REPRESENTABLE_TIME else ms1
  let t := ms_to_times ms2.toNat
  (pad2 t.1 ++ ":" ++ pad2 t.2.1 ++ ":" ++ pad2 t.2.2.1, overflow)

/-! ## The `TMP_LINE` pattern

`TMP_LINE = re.compile(rb"(\d{1,2}:\d{2}:\d{2}):(.+)")`.  The scanners
below implement this pattern exactly: `parseHH` is the greedy
`\d{1,2}` followed by `:` (two digits preferred, one digit otherwise),
`parse2` is `\d{2}`, and the text group `(.+)` is the maximal non-empty
run of characters other than a newline. -/

/-- Decimal value of an ASCII digit character. -/
def digitVal (c : Char) : Nat := c.toNat - 48

/-- Greedy `\d{1,2}:` — prefer two digits, fall back to one. -/
def parseHH : List Char → Option (Nat × List Char)
  | c1 :: c2 :: c3 :: rest =>
    if c1.isDigit && c2.isDigit && c3 == ':' then
      some (10 * digitVal c1 + digitVal c2, rest)
    else if c1.isDigit && c2 == ':' then
      some (digitVal c1, c3 :: rest)
    else none
  | [c1, c2] => if c1.isDigit && c2 == ':' then some (digitVal c1, []) else none
  | _ => none

/-- Exactly two digits, `\d{2}`. -/
def parse2 : List Char → Option (Nat × List Char)
  | c1 :: c2 :: rest =>
    if c1.isDigit && c2.isDigit then some (10 * digitVal c1 + digitVal c2, rest)
    else none
  | _ => none

/-- A literal `:`. -/
def expectColon : List Char → Option (List Char)
  | c :: rest => if c == ':' then some rest else none
  | [] => none

/-- Match `TMP_LINE` at the head of `cs`.  On success returns the numeric
hours/minutes/seconds of group 1, the characters of group 2 and the
remainder of the input after the full (greedy) match. -/
def matchTmpAt (cs : List Char) : Option (Nat × Nat × Nat × List Char × List Char) :=
  match parseHH cs with
  | none => none
  | some (h, r1) =>
    match parse2 r1 with
    | none => none
    | some (m, r2) =>
      match expectColon r2 with
      | none => none
      | some r3 =>
        match parse2 r3 with
        | none => none
        | some (s, r4) =>
          match expectColon r4 with
          | none => none
          | some r5 =>
            let txt := r5.takeWhile (fun c => c != '\n')
            if txt.isEmpty then none
            else some (h, m, s, txt, r5.dropWhile (fun c => c != '\n'))

/-- Length bound justifying the recursion of the scanners below. -/
def parseHH_le {cs r : List Char} {h : Nat} (hp : parseHH cs = some (h, r)) :
    r.length + 2 ≤ cs.length := by
  match cs with
  | c1 :: c2 :: c3 :: rest =>
    simp only [parseHH] at hp
    split at hp
    · cases hp; simp only [List.length_cons]; omega
    · split at hp
      · cases hp; simp only [List.length_cons]; omega
      · cases hp
  | [c1, c2] =>
    simp only [parseHH] at hp
    split at hp
    · cases hp; simp only [List.length_cons, List.length_nil]; omega
    · cases hp
  | [] => simp [parseHH] at hp
  | [c1] => simp [parseHH] at hp

/-- Length bound justifying the recursion of the scanners below. -/
def parse2_le {cs r : List Char} {n : Nat} (hp : parse2 cs = some (n, r)) :
    r.length + 2 = cs.length := by
  match cs with
  | c1 :: c2 :: rest =>
    simp only [parse2] at hp
    split at hp
    · cases hp; simp only [List.length_cons]
    · cases hp
  | [] => simp [parse2] at hp
  | [c1] => simp [parse2] at hp

/-- Length bound justifying the recursion of the scanners below. -/
def expectColon_le {cs r : List Char} (hp : expectColon cs = some r) :
    r.length + 1 = cs.length := by
  match cs with
  | c :: rest =>
    simp only [expectColon] at hp
    split at hp
    · cases hp; simp only [List.length_cons]
    · cases hp
  | [] => simp [expectColon] at hp

/-- Length bound justifying the recursion of the scanners below. -/
def matchTmpAt_lt {cs after txt : List Char} {h m s : Nat}
    (hp : matchTmpAt cs = some (h, m, s, txt, after)) : after.length < cs.length := by
  simp only [matchTmpAt] at hp
  split at hp
  · cases hp
  next h1 r1 e1 =>
    split at hp
    · cases hp
    next m1 r2 e2 =>
      split at hp
      · cases hp
      next r3 e3 =>
        split at hp
        · cases hp
        next s1 r4 e4 =>
          split at hp
          · cases hp
          next r5 e5 =>
            split at hp
            · cases hp
            next hne =>
              cases hp
              have l1 := parseHH_le e1
              have l2 := parse2_le e2
              have l3 := expectColon_le e3
              have l4 := parse2_le e4
              have l5 := expectColon_le e5
              have l6 : (r5.takeWhile (fun c => c != '\n')).length + (r5.dropWhile (fun c => c != '\n')).length = r5.length := by
                rw [← List.length_append, List.takeWhile_append_dropWhile]
              have l7 : (r5.takeWhile (fun c => c != '\n')).length ≠ 0 := by
                intro hz
                rw [List.length_eq_zero] at hz
                simp [hz] at hne
              omega

/-! ## Input text preparation (`from_file.prepare_text`, `tmp.py` lines 47–51)

Three passes over the raw text group: `text.replace(b"|", rb"\N")`,
`re.sub(rb"< *u *>", ...)` producing the override tag `{\u1}`, and
`re.sub(rb"< */? *[a-zA-Z][^>]*>", b"")` stripping remaining HTML-like
tags.  The two `re.sub` calls are embedded as left-to-right scanners: at
each position try the pattern; on success emit the replacement and resume
after the match, otherwise emit one character and advance. -/

/-- Zero or more spaces, the `\x20*` parts of the two patterns. -/
def dropSpaces (cs : List Char) : List Char := cs.dropWhile (fun c => c == ' ')

/-- Try to match the remainder of `< *u *>` after its `<`. -/
def matchU (cs : List Char) : Option (List Char) :=
  match dropSpaces cs with
  | 'u' :: r2 =>
    match dropSpaces r2 with
    | '>' :: r4 => some r4
    | _ => none
  | _ => none

/-- Length bound justifying the recursion of the scanners below. -/
def matchU_le {cs r : List Char} (hp : matchU cs = some r) : r.length ≤ cs.length := by
  simp only [matchU] at hp
  split at hp
  next r2 heq1 =>
    split at hp
    next r4 heq2 =>
      cases hp
      have d1 : (dropSpaces cs).length ≤ cs.length := (List.dropWhile_sublist _).length_le
      have d2 : (dropSpaces r2).length ≤ r2.length := (List.dropWhile_sublist _).length_le
      rw [heq1] at d1
      rw [heq2] at d2
      simp only [List.length_cons] at d1 d2
      omega
    · cases hp
  · cases hp

/-- `re.sub(rb"< *u *>", b"{\\u1}", text)`: each occurrence of the
underline tag becomes the five characters of the SubStation override
tag (brace, backslash, `u`, `1`, brace). -/
def subU : List Char → List Char
  | [] => []
  | c :: rest =>
    if c == '<' then
      match hm : matchU rest with
      | some r => '\x7b' :: '\\' :: 'u' :: '1' :: '\x7d' :: subU r
      | none => c :: subU rest
    else c :: subU rest
termination_by cs => cs.length
decreasing_by
  · have := matchU_le hm; simp only [List.length_cons]; omega
  · simp only [List.length_cons]; omega
  · simp only [List.length_cons]; omega

/-- The optional `/?` of the tag-stripping pattern followed by `\x20*`. -/
def dropSlash (cs : List Char) : List Char :=
  match cs with
  | c :: t => if c == '/' then dropSpaces t else c :: t
  | [] => []

/-- Length bound justifying the recursion of the scanners below. -/
def dropSlash_le (cs : List Char) : (dropSlash cs).length ≤ cs.length := by
  match cs with
  | [] => simp [dropSlash]
  | c :: t =>
    simp only [dropSlash]
    split
    · have := (List.dropWhile_sublist (l := t) (fun c => c == ' ')).length_le
      simp only [dropSpaces, List.length_cons]
      omega
    · simp

/-- Try to match the remainder of `< */? *[a-zA-Z][^>]*>` after its `<`:
optional slash between spaces, one ASCII letter, then everything up to
and including the next `>`. -/
def matchTag (cs : List Char) : Option (List Char) :=
  match dropSlash (dropSpaces cs) with
  | c :: r3 =>
    if c.isAlpha then
      match r3.dropWhile (fun d => d != '>') with
      | '>' :: r5 => some r5
      | _ => none
    else none
  | [] => none

/-- Length bound justifying the recursion of the scanners below. -/
def matchTag_le {cs r : List Char} (hp : matchTag cs = some r) : r.length ≤ cs.length := by
  simp only [matchTag] at hp
  split at hp
  next c r3 heq1 =>
    split at hp
    · split at hp
      next r5 heq2 =>
        cases hp
        have d1 : (dropSlash (dropSpaces cs)).length ≤ cs.length := by
          have := dropSlash_le (dropSpaces cs)
          have := (List.dropWhile_sublist (l := cs) (fun c => c == ' ')).length_le
          simp only [dropSpaces] at *
          omega
        have d2 : (r3.dropWhile (fun d => d != '>')).length ≤ r3.length :=
          (List.dropWhile_sublist _).length_le
        rw [heq1] at d1
        rw [heq2] at d2
        simp only [List.length_cons] at d1 d2
        omega
      · cases hp
    · cases hp
  · cases hp

/-- `re.sub(rb"< */? *[a-zA-Z][^>]*>", b"", text)`: strip HTML-like tags. -/
def subTags : List Char → List Char
  | [] => []
  | c :: rest =>
    if c == '<' then
      match hm : matchTag rest with
      | some r => subTags r
      | none => c :: subTags rest
    else c :: subTags rest
termination_by cs => cs.length
decreasing_by
  · have := matchTag_le hm; simp only [List.length_cons]; omega
  · simp only [List.length_cons]; omega
  · simp only [List.length_cons]; omega

/-- `text.replace(b"|", rb"\N")`: every vertical bar becomes the two
characters backslash-`N`, the document's hard line-break marker. -/
def replacePipe : List Char → List Char
  | [] => []
  | c :: rest =>
    if c == '|' then '\\' :: 'N' :: replacePipe rest else c :: replacePipe rest

/-- `prepare_text` of `TmpFormat.from_file` (`tmp.py`, lines 47–51). -/
def prepare_text (text : String) : String :=
  String.mk (subTags (subU (replacePipe text.data)))

/-! ## `TmpFormat.from_file` (`tmp.py`, lines 42–72) -/

/-- The per-line body of the read loop: skip the line unless `TMP_LINE`
matches at its start; otherwise build an event whose `start` comes from
the clock group, whose `end` is the reading-speed estimate
`start + 500 + len(line) * 67`, and whose text is the prepared group 2.
The event constructor defaults (modelled from the spec) fill
`style = "Default"` and `is_comment = false`. -/
def tmpLineToEvent (line : String) : Option SSAEvent :=
  match matchTmpAt line.data with
  | none => none
  | some (h, m, s, txt, _) =>
    let start := timestamp_to_ms h m s
    some { start := start, end_ := start + 500 + (line.length : Int) * 67,
           text := prepare_text (String.mk txt), style := "Default", is_comment := false }

/-- The overlap-repair pass of `from_file` (`tmp.py`, lines 69–70):
`events[i].end = min(events[i].end, events[i+1].start)` for `i` from left
to right.  The loop never modifies any `start`, so the functional
rendition below, which consumes the list left to right, computes the same
final sequence. -/
def overlapRepair : List SSAEvent → List SSAEvent
  | [] => []
  | [e] => [e]
  | e1 :: e2 :: rest => { e1 with end_ := min e1.end_ e2.start } :: overlapRepair (e2 :: rest)

/-- The event sequence produced by `TmpFormat.from_file` from the lines of
the input file. -/
def tmp_from_file (lines : List String) : List SSAEvent :=
  overlapRepair (lines.filterMap tmpLineToEvent)

/-- `TmpFormat.from_file` as a document transformer: `subs.events = events`
(`tmp.py`, line 72). -/
def tmp_read (subs : SSAFile) (lines : List String) : SSAFile :=
  { subs with events := tmp_from_file lines }

/-! ## Output text preparation (`to_file.prepare_text`, `tmp.py` lines 85–102) -/

/-- `fragment.replace(backslash + p, r)`: left-to-right non-overlapping
replacement of the two-character escape sequence by `r`, as Python
`bytes.replace` performs it. -/
def replacePair (p : Char) (r : List Char) : List Char → List Char
  | [] => []
  | [a] => [a]
  | a :: b :: rest =>
    if a == '\\' && b == p then r ++ replacePair p r rest
    else a :: replacePair p r (b :: rest)

/-- Python `bytes.strip()` whitespace set. -/
def isPyWS (c : Char) : Bool :=
  c == ' ' || c == '\t' || c == '\n' || c == '\r' || c == '\x0b' || c == '\x0c'

/-- Python `.strip()`: remove leading and trailing whitespace. -/
def stripWS (cs : List Char) : List Char :=
  ((cs.dropWhile isPyWS).reverse.dropWhile isPyWS).reverse

/-- `re.sub(b"\n+", b"\n", ...)`: collapse every run of consecutive
newlines into a single newline. -/
def collapseNL : List Char → List Char
  | [] => []
  | [c] => [c]
  | a :: b :: rest =>
    if a == '\n' && b == '\n' then collapseNL (b :: rest)
    else a :: collapseNL (b :: rest)

/-- `prepare_text` of `TmpFormat.to_file` (`tmp.py`, lines 85–102), taking
the `(fragment, resolved-style)` pairs that `parse_tags` (an external
collaborator from the SubStation module, not among the reviewed sources)
produces for the event: map escapes to spaces/newlines, optionally wrap
styled fragments in HTML-like tags, and — whenever ANY fragment's
resolved style has the `drawing` flag — return the empty text for the
whole event (`skip` in the source); otherwise strip and collapse
newlines. -/
def prepare_text_write (frags : List (String × SSAStyle)) (apply_styles : Bool) : String :=
  let body := frags.map (fun fs =>
    let f1 := replacePair 'h' [' '] fs.1.data
    let f2 := replacePair 'n' ['\n'] f1
    let f3 := replacePair 'N' ['\n'] f2
    let f4 := if apply_styles && fs.2.italic then "<i>".data ++ f3 ++ "</i>".data else f3
    let f5 := if apply_styles && fs.2.underline then "<u>".data ++ f4 ++ "</u>".data else f4
    if apply_styles && fs.2.strikeout then "<s>".data ++ f5 ++ "</s>".data else f5)
  let skip := frags.any (fun fs => fs.2.drawing)
  if skip then "" else String.mk (collapseNL (stripWS body.flatten))

/-- `TmpFormat.to_file` (`tmp.py`, lines 74–110) at the line level: one
output line `start ++ ":" ++ text` per visible (non-comment) event, the
style resolved from the document's style table with the default style as
fallback.  `ptags` is the injected `parse_tags` collaborator. -/
def tmp_to_file (subs : SSAFile)
    (ptags : String → SSAStyle → List (String × SSAStyle)) (apply_styles : Bool) :
    List String :=
  (subs.events.filter (fun line => !line.is_comment)).map (fun line =>
    (ms_to_timestamp line.start).1 ++ ":" ++
      prepare_text_write (ptags line.text ((subs.styles.lookup line.style).getD DEFAULT_STYLE))
        apply_styles)

/-- A style whose `drawing` flag is set. -/
def drawingStyle : SSAStyle := { DEFAULT_STYLE with drawing := true }

/-! ## `TmpFormat.guess_format` (`tmp.py`, lines 31–40) -/

/-- Does `needle` occur at the head of `hay`? -/
def startsWithChars : List Char → List Char → Bool
  | _, [] => true
  | [], _ :: _ => false
  | c :: cs, d :: ds => c == d && startsWithChars cs ds

/-- Python `needle in hay` for byte strings: does `needle` occur anywhere
in `hay`? -/
def hasSubstr (hay needle : List Char) : Bool :=
  match hay with
  | [] => startsWithChars [] needle
  | c :: t => startsWithChars (c :: t) needle || hasSubstr t needle

/-- Python `bytes.splitlines()`: split at `\n`, `\r\n` or `\r`, no
trailing empty line for a terminal line break. -/
def splitlinesGo (acc : List Char) : List Char → List (List Char)
  | [] => if acc.isEmpty then [] else [acc.reverse]
  | '\n' :: rest => acc.reverse :: splitlinesGo [] rest
  | '\r' :: '\n' :: rest => acc.reverse :: splitlinesGo [] rest
  | '\r' :: rest => acc.reverse :: splitlinesGo [] rest
  | c :: rest => splitlinesGo (c :: acc) rest

def splitlines (cs : List Char) : List (List Char) := splitlinesGo [] cs

/-- `len(TMP_LINE.findall(line))`: scan left to right; at the leftmost
position where the pattern matches, consume the whole (greedy) match and
continue after it, otherwise advance one character. -/
def tmpFindallCount : List Char → Nat
  | [] => 0
  | c :: rest =>
    match hm : matchTmpAt (c :: rest) with
    | some (_, _, _, _, after) => 1 + tmpFindallCount after
    | none => tmpFindallCount rest
termination_by cs => cs.length
decreasing_by
  · exact matchTmpAt_lt hm
  · simp only [List.length_cons]; omega

/-- `TmpFormat.guess_format` (`tmp.py`, lines 31–40): text containing a
SubStation header sentinel is never classified (disambiguation vs.
SSA/ASS); otherwise the format is `"tmp"` if some line matches `TMP_LINE`
at its start with exactly one `findall` occurrence, and `None` (the
implicit Python fall-through) otherwise. -/
def tmp_guess_format (text : String) : Option String :=
  if hasSubstr text.data "[Script Info]".data || hasSubstr text.data "[V4+ Styles]".data then
    none
  else if (splitlines text.data).any
      (fun line => (matchTmpAt line).isSome && tmpFindallCount line == 1) then
    some "tmp"
  else none

/-! ## `SSAFile` operations (`ssafile.py`) -/

/-- Modelled from the spec: `is_valid_field_content` from the SubStation
module (not among the reviewed sources): a style name is storable iff it
is non-empty and contains no comma (the field delimiter). -/
def is_valid_field_content (s : String) : Bool :=
  !(s.data.isEmpty) && !(s.data.contains ',')

/-- `self.styles[key] = value` on the `OrderedDict` style table: replace
in place when the key is present, append otherwise. -/
def dictSet (d : List (String × SSAStyle)) (k : String) (v : SSAStyle) :
    List (String × SSAStyle) :=
  if (d.lookup k).isSome then d.map (fun p => if p.1 = k then (k, v) else p)
  else d ++ [(k, v)]

/-- `SSAFile.rename_style` (`ssafile.py`, lines 293–320).  The three
checks precede every mutation, in source order: `old_name` absent, then
`new_name` taken, then `new_name` invalid.  On success the table entry is
moved to the new key (`styles[new] = styles[old]; del styles[old]` — the
Python dict has unique keys, so deleting the key removes every entry
carrying it) and each event referencing `old_name` is repointed. -/
def rename_style (subs : SSAFile) (old_name new_name : String) :
    Except SubsError Unit × SSAFile :=
  match subs.styles.lookup old_name with
  | none => (Except.error SubsError.StyleNotFound, subs)
  | some sty =>
    if (subs.styles.lookup new_name).isSome then
      (Except.error SubsError.StyleNameConflict, subs)
    else if !(is_valid_field_content new_name) then
      (Except.error SubsError.InvalidStyleName, subs)
    else
      (Except.ok (),
       { subs with
         styles := (dictSet subs.styles new_name sty).filter (fun p => p.1 != old_name),
         events := subs.events.map (fun line =>
           if line.style = old_name then { line with style := new_name } else line) })

/-- Python 3 `round` to an integer: round half to even. -/
def pyRound (q : ℚ) : Int :=
  let f := ⌊q⌋
  if q - f < 1/2 then f
  else if 1/2 < q - f then f + 1
  else if f % 2 = 0 then f else f + 1

/-- `SSAFile.transform_framerate` (`ssafile.py`, lines 263–287): reject a
non-positive framerate before touching any event, otherwise rescale every
timestamp by `in_fps / out_fps` and round. -/
def transform_framerate (subs : SSAFile) (in_fps out_fps : ℚ) :
    Except SubsError Unit × SSAFile :=
  if in_fps ≤ 0 ∨ out_fps ≤ 0 then (Except.error SubsError.InvalidFramerate, subs)
  else
    (Except.ok (),
     { subs with events := subs.events.map (fun line =>
         { line with start := pyRound (line.start * (in_fps / out_fps)),
                     end_ := pyRound (line.end_ * (in_fps / out_fps)) }) })

/-- `SSAFile.shift` (`ssafile.py`, lines 243–261) with the millisecond
delta already computed by `make_time` (for a pure millisecond shift the
conversion is the identity): add `delta` to every event's timestamps. -/
def shift (subs : SSAFile) (delta : Int) : SSAFile :=
  { subs with events := subs.events.map (fun line =>
      { line with start := line.start + delta, end_ := line.end_ + delta }) }

/-- A small concrete document used as input of the witness theorems. -/
def demoSubs : SSAFile :=
  { events := [⟨0, 1000, "hi", "Default", false⟩],
    styles := [("Default", DEFAULT_STYLE)],
    info := [("WrapStyle", "0")] }

/-- The document obtained from `demoSubs` by renaming "Default" to
"Foo". -/
def demoSubsRenamed : SSAFile :=
  { events := [⟨0, 1000, "hi", "Foo", false⟩],
    styles := [("Foo", DEFAULT_STYLE)],
    info := [("WrapStyle", "0")] }

/-! ## Theorems -/

theorem subU_nil : subU [] = [] := by simp [subU]

theorem subU_cons_match {rest r : List Char} (h : matchU rest = some r) :
    subU ('<' :: rest) = '\x7b' :: '\\' :: 'u' :: '1' :: '\x7d' :: subU r := by
  rw [subU]
  simp only [beq_self_eq_true, if_true]
  split
  next r2 heq => rw [h] at heq; cases heq; rfl
  next heq => rw [h] at heq; exact Option.noConfusion heq

theorem subU_cons_none {rest : List Char} (h : matchU rest = none) :
    subU ('<' :: rest) = '<' :: subU rest := by
  rw [subU]
  simp only [beq_self_eq_true, if_true]
  split
  next r2 heq => rw [h] at heq; exact Option.noConfusion heq
  next heq => rfl

theorem subU_cons_other {c : Char} {rest : List Char} (h : (c == '<') = false) :
    subU (c :: rest) = c :: subU rest := by
  rw [subU]
  simp only [h, Bool.false_eq_true, if_false]

theorem subTags_nil : subTags [] = [] := by simp [subTags]

theorem subTags_cons_match {rest r : List Char} (h : matchTag rest = some r) :
    subTags ('<' :: rest) = subTags r := by
  rw [subTags]
  simp only [beq_self_eq_true, if_true]
  split
  next r2 heq => rw [h] at heq; cases heq; rfl
  next heq => rw [h] at heq; exact Option.noConfusion heq

theorem subTags_cons_none {rest : List Char} (h : matchTag rest = none) :
    subTags ('<' :: rest) = '<' :: subTags rest := by
  rw [subTags]
  simp only [beq_self_eq_true, if_true]
  split
  next r2 heq => rw [h] at heq; exact Option.noConfusion heq
  next heq => rfl

theorem subTags_cons_other {c : Char} {rest : List Char} (h : (c == '<') = false) :
    subTags (c :: rest) = c :: subTags rest := by
  rw [subTags]
  simp only [h, Bool.false_eq_true, if_false]

theorem overlapRepair_head_start (e : SSAEvent) (l : List SSAEvent) :
    ∃ r, (overlapRepair (e :: l)).head? = some r ∧ r.start = e.start := by
  cases l with
  | nil => exact ⟨e, rfl, rfl⟩
  | cons f t => exact ⟨{ e with end_ := min e.end_ f.start }, rfl, rfl⟩

theorem overlapRepair_chain :
    ∀ l : List SSAEvent, List.Chain' (fun a b => a.end_ ≤ b.start) (overlapRepair l)
  | [] => List.chain'_nil
  | [e] => by simp [overlapRepair]
  | e :: f :: t => by
    have ih := overlapRepair_chain (f :: t)
    show List.Chain' _ ({ e with end_ := min e.end_ f.start } :: overlapRepair (f :: t))
    rw [List.chain'_cons']
    refine ⟨?_, ih⟩
    intro b hb
    obtain ⟨r, hr, hs⟩ := overlapRepair_head_start f t
    rw [hr] at hb
    simp only [Option.mem_def, Option.some.injEq] at hb
    rw [← hb, hs]
    exact min_le_right _ _

theorem chainGetElem {α : Type} {R : α → α → Prop} :
    ∀ (l : List α) (i : Nat) (a b : α), List.Chain' R l →
      l[i]? = some a → l[i + 1]? = some b → R a b := by
  intro l
  induction l with
  | nil => intro i a b _ h1 _; simp at h1
  | cons x xs ih =>
    intro i a b hc h1 h2
    rw [List.chain'_cons'] at hc
    cases i with
    | zero =>
      simp only [List.getElem?_cons_zero, Option.some.injEq] at h1
      subst h1
      have h2' : xs[0]? = some b := by simpa using h2
      cases xs with
      | nil => simp at h2'
      | cons y ys =>
        simp only [List.getElem?_cons_zero, Option.some.injEq] at h2'
        subst h2'
        exact hc.1 _ rfl
    | succ n =>
      exact ih n a b hc.2 (by simpa using h1) (by simpa using h2)

theorem pad2_length : ∀ n : Nat, n < 100 → (pad2 n).length = 2 := by decide

theorem hms_str_length (x : Nat) (hx : x ≤ 359999000) :
    (pad2 (ms_to_times x).1 ++ ":" ++ pad2 (ms_to_times x).2.1 ++ ":" ++
      pad2 (ms_to_times x).2.2.1).length = 8 := by
  have h1 : (ms_to_times x).1 < 100 := by
    show x / 3600000 < 100
    exact (Nat.div_lt_iff_lt_mul (by norm_num)).mpr (by omega)
  have h2 : (ms_to_times x).2.1 < 100 := by
    show x % 3600000 / 60000 < 100
    have := Nat.mod_lt x (y := 3600000) (by norm_num)
    exact (Nat.div_lt_iff_lt_mul (by norm_num)).mpr (by omega)
  have h3 : (ms_to_times x).2.2.1 < 100 := by
    show x % 3600000 % 60000 / 1000 < 100
    have := Nat.mod_lt (x % 3600000) (y := 60000) (by norm_num)
    exact (Nat.div_lt_iff_lt_mul (by norm_num)).mpr (by omega)
  have hc : (":" : String).length = 1 := rfl
  simp only [String.length_append, pad2_length _ h1, pad2_length _ h2, pad2_length _ h3, hc]

theorem lookup_filter_ne (l : List (String × SSAStyle)) (k : String) :
    (l.filter (fun p => p.1 != k)).lookup k = none := by
  induction l with
  | nil => rfl
  | cons a t ih =>
    obtain ⟨a1, a2⟩ := a
    by_cases h : a1 = k
    · subst h
      simpa [List.filter_cons] using ih
    · have hb : (a1 != k) = true := by simpa using h
      have hk : (k == a1) = false := beq_eq_false_iff_ne.mpr (Ne.symm h)
      simp [List.filter_cons, hb, List.lookup, hk, ih]

theorem lookup_filter_none {l : List (String × SSAStyle)} {j : String}
    (p : String × SSAStyle → Bool) (h : l.lookup j = none) :
    (l.filter p).lookup j = none := by
  induction l with
  | nil => rfl
  | cons a t ih =>
    obtain ⟨a1, a2⟩ := a
    simp only [List.lookup] at h
    rcases hj : (j == a1) with _ | _
    · rw [hj] at h
      by_cases hp : p (a1, a2) = true
      · simp [List.filter_cons, hp, List.lookup, hj, ih h]
      · simp only [Bool.not_eq_true] at hp
        simp [List.filter_cons, hp, ih h]
    · rw [hj] at h
      simp at h

theorem lookup_append_none {l1 l2 : List (String × SSAStyle)} {k : String}
    (h : l1.lookup k = none) : (l1 ++ l2).lookup k = l2.lookup k := by
  induction l1 with
  | nil => rfl
  | cons a t ih =>
    obtain ⟨a1, a2⟩ := a
    simp only [List.lookup] at h
    rcases hj : (k == a1) with _ | _
    · rw [hj] at h
      simp [List.lookup, hj, ih h]
    · rw [hj] at h
      simp at h

theorem dictSet_not_mem {l : List (String × SSAStyle)} {k : String} {v : SSAStyle}
    (h : l.lookup k = none) : dictSet l k v = l ++ [(k, v)] := by
  simp [dictSet, h]

theorem tmp_from_file_demo :
    tmp_from_file ["0:00:05:Hello", "0:00:06:World"] =
      [⟨5000, 6000, "Hello", "Default", false⟩, ⟨6000, 7371, "World", "Default", false⟩] := by
  have m1 : matchTmpAt "0:00:05:Hello".data = some (0, 0, 5, "Hello".data, []) := by rfl
  have m2 : matchTmpAt "0:00:06:World".data = some (0, 0, 6, "World".data, []) := by rfl
  have p1 : prepare_text "Hello" = "Hello" := by
    simp [prepare_text, replacePipe, subU_cons_other, subU_nil, subTags_cons_other, subTags_nil]
  have p2 : prepare_text "World" = "World" := by
    simp [prepare_text, replacePipe, subU_cons_other, subU_nil, subTags_cons_other, subTags_nil]
  simp only [tmp_from_file, List.filterMap, tmpLineToEvent, m1, m2]
  rw [show String.mk "Hello".data = "Hello" from rfl, show String.mk "World".data = "World" from rfl]
  rw [p1, p2]
  simp [overlapRepair, timestamp_to_ms, make_time]
  decide

/-- C2: after the TMP codec's read operation populates a document, every
adjacent pair of events `(i, i+1)` in document order satisfies
`events[i].end <= events[i+1].start`; the repair is the single
left-to-right pass `overlapRepair` over the final event sequence, run
once per file. -/
theorem tmp_read_no_overlap (subs : SSAFile) (lines : List String) (i : Nat)
    (e1 e2 : SSAEvent)
    (h1 : (tmp_read subs lines).events[i]? = some e1)
    (h2 : (tmp_read subs lines).events[i + 1]? = some e2) :
    e1.end_ ≤ e2.start := by
  have hc := overlapRepair_chain (lines.filterMap tmpLineToEvent)
  exact chainGetElem _ i e1 e2 hc h1 h2

/-- Witness for C2 at a concrete two-line input. -/
theorem tmp_read_no_overlap_witness : (6000 : Int) ≤ 6000 := by
  refine tmp_read_no_overlap demoSubs ["0:00:05:Hello", "0:00:06:World"] 0
    ⟨5000, 6000, "Hello", "Default", false⟩ ⟨6000, 7371, "World", "Default", false⟩ ?_ ?_
  · show (tmp_from_file ["0:00:05:Hello", "0:00:06:World"])[0]? = _
    rw [tmp_from_file_demo]
    rfl
  · show (tmp_from_file ["0:00:05:Hello", "0:00:06:World"])[1]? = _
    rw [tmp_from_file_demo]
    rfl

/-- C5: reading the single TMP input line `"00:00:01:Hello|World"`
produces exactly one event with `start = 1000` ms, text with the
hard-break marker `\N` replacing the `|` between `Hello` and `World`, and
`end = 1000 + 500 + 67 * 20` where 20 is the character count of the
line. -/
theorem tmp_read_scenario :
    tmp_from_file ["00:00:01:Hello|World"] =
      [{ start := 1000, end_ := 1000 + 500 + 67 * 20, text := "Hello\\NWorld",
         style := "Default", is_comment := false }] := by
  have m1 : matchTmpAt "00:00:01:Hello|World".data = some (0, 0, 1, "Hello|World".data, []) := by rfl
  have p1 : prepare_text "Hello|World" = "Hello\\NWorld" := by
    simp [prepare_text, replacePipe, subU_cons_other, subU_nil, subTags_cons_other, subTags_nil]
  simp only [tmp_from_file, List.filterMap, tmpLineToEvent, m1]
  rw [show String.mk "Hello|World".data = "Hello|World" from rfl]
  rw [p1]
  simp [overlapRepair, timestamp_to_ms, make_time]
  decide

/-- C8: for every integer millisecond value the TMP timestamp formatter
produces output: a negative value is clamped to zero (formatted
`00:00:00`), a value beyond the maximum representable `99:59:59` is
clamped to that maximum with the warning flag set, and the rendered
timestamp always has the full `HH:MM:SS` shape (length 8). -/
theorem ms_to_timestamp_clamps (ms : Int) :
    (ms < 0 → ms_to_timestamp ms = ("00:00:00", false)) ∧
    (ms > MAX_REPRESENTABLE_TIME → ms_to_timestamp ms = ("99:59:59", true)) ∧
    (ms_to_timestamp ms).1.length = 8 := by
  have hmax : MAX_REPRESENTABLE_TIME = 359999000 := by norm_num [MAX_REPRESENTABLE_TIME, make_time]
  refine ⟨?_, ?_, ?_⟩
  · intro h
    simp only [ms_to_timestamp]
    rw [if_pos h]
    rfl
  · intro h
    have h0 : ¬ ms < 0 := by rw [hmax] at h; omega
    simp only [ms_to_timestamp]
    rw [if_neg h0, if_pos h, decide_eq_true h]
    rfl
  · have hbound : (if (if ms < 0 then 0 else ms) > MAX_REPRESENTABLE_TIME
        then MAX_REPRESENTABLE_TIME else (if ms < 0 then 0 else ms)).toNat ≤ 359999000 := by
      rw [hmax]
      split_ifs <;> omega
    simp only [ms_to_timestamp]
    exact hms_str_length _ hbound

/-- Witness for C8 at a negative and at an overflowing input. -/
theorem ms_to_timestamp_clamps_witness :
    ms_to_timestamp (-5) = ("00:00:00", false) ∧
    ms_to_timestamp 400000000 = ("99:59:59", true) :=
  ⟨(ms_to_timestamp_clamps (-5)).1 (by decide),
   (ms_to_timestamp_clamps 400000000).2.1 (by decide)⟩

/-- C1 counterexample: an event with one ordinary fragment and one
drawing fragment is written with EMPTY text — the ordinary fragment
`"Hello"` is not emitted — although the event's text does not entirely
resolve to dropped fragments. -/
theorem tmp_write_drawing_counterexample :
    prepare_text_write [("Hello", DEFAULT_STYLE), ("m 0 0", drawingStyle)] true = "" ∧
    ([("Hello", DEFAULT_STYLE), ("m 0 0", drawingStyle)].any (fun fs => !fs.2.drawing)) = true := by
  decide

/-- C1 (amended): if ANY fragment of an event resolves to a style with
the drawing flag set, the entire event text is written empty (the
remaining fragments are not emitted); the event is still written as a
line rather than skipped — the writer emits exactly one line per
non-comment event regardless of its text. -/
theorem tmp_write_drawing_skip (frags : List (String × SSAStyle)) (apply_styles : Bool)
    (subs : SSAFile) (ptags : String → SSAStyle → List (String × SSAStyle))
    (h : frags.any (fun fs => fs.2.drawing) = true) :
    prepare_text_write frags apply_styles = "" ∧
    (tmp_to_file subs ptags apply_styles).length =
      (subs.events.filter (fun line => !line.is_comment)).length := by
  constructor
  · simp only [prepare_text_write, h, if_true]
  · simp [tmp_to_file]

/-- Witness for C1 (amended) at a concrete fragment list and document. -/
theorem tmp_write_drawing_skip_witness :
    prepare_text_write [("Hi", DEFAULT_STYLE), ("m 0 0", drawingStyle)] true = "" ∧
    (tmp_to_file demoSubs (fun _ _ => []) true).length =
      (demoSubs.events.filter (fun line => !line.is_comment)).length :=
  tmp_write_drawing_skip [("Hi", DEFAULT_STYLE), ("m 0 0", drawingStyle)] true demoSubs
    (fun _ _ => []) (by decide)

/-- C7: the TMP `guess_format` never classifies text containing a markup
header sentinel as `"tmp"` (it returns `none` on such content even when a
line matches the TMP grammar), returns `none` when no line passes the
line test, and in every case returns either `none` or `some "tmp"` —
never anything else. -/
theorem tmp_guess_format_spec (text : String) :
    ((hasSubstr text.data "[Script Info]".data = true ∨
      hasSubstr text.data "[V4+ Styles]".data = true) → tmp_guess_format text = none) ∧
    ((splitlines text.data).all
        (fun line => !((matchTmpAt line).isSome && tmpFindallCount line == 1)) = true →
      tmp_guess_format text = none) ∧
    (tmp_guess_format text = none ∨ tmp_guess_format text = some "tmp") := by
  refine ⟨?_, ?_, ?_⟩
  · intro h
    have hcond : (hasSubstr text.data "[Script Info]".data ||
        hasSubstr text.data "[V4+ Styles]".data) = true := by
      rcases h with h | h <;> simp [h]
    simp [tmp_guess_format, hcond]
  · intro h
    have hany : (splitlines text.data).any
        (fun line => (matchTmpAt line).isSome && tmpFindallCount line == 1) = false := by
      rw [List.any_eq_false]
      intro x hx
      rw [List.all_eq_true] at h
      have hx2 := h x hx
      simp at hx2 ⊢
      intro hs
      rcases hx2 with h1 | h1
      · rw [h1] at hs; simp at hs
      · exact h1
    simp [tmp_guess_format, hany]
  · simp only [tmp_guess_format]
    split
    · exact Or.inl rfl
    · split
      · exact Or.inr rfl
      · exact Or.inl rfl

/-- Witness for C7: sentinel-bearing text with a grammar-matching line is
rejected, and text with no matching line yields `none`. -/
theorem tmp_guess_format_spec_witness :
    tmp_guess_format "[Script Info]\n00:00:01:Hello" = none ∧
    (matchTmpAt "00:00:01:Hello".data).isSome = true ∧
    tmp_guess_format "hello world" = none := by
  refine ⟨(tmp_guess_format_spec _).1 (Or.inl ?_), ?_, (tmp_guess_format_spec _).2.1 ?_⟩
  · decide
  · decide
  · decide

/-- C3: if `rename_style old new` succeeds, then the style table no
longer has key `old`, key `new` maps to the record formerly stored under
`old`, every event whose style was `old` now has style `new`, and any
subsequent `rename_style old r` fails with `StyleNotFound` leaving the
document unchanged (in particular `rename_style "Default" "Foo"` followed
by `rename_style "Default" "Bar"`). -/
theorem rename_style_success (subs subs' : SSAFile) (old_name new_name other : String)
    (h : rename_style subs old_name new_name = (Except.ok (), subs')) :
    subs'.styles.lookup old_name = none ∧
    subs'.styles.lookup new_name = subs.styles.lookup old_name ∧
    subs'.events = subs.events.map (fun line =>
      if line.style = old_name then { line with style := new_name } else line) ∧
    rename_style subs' old_name other = (Except.error SubsError.StyleNotFound, subs') := by
  rcases hl : subs.styles.lookup old_name with _ | sty
  · simp [rename_style, hl] at h
  · simp only [rename_style, hl] at h
    split_ifs at h with hn hv
    · simp at h
    · simp at h
    · have hnone : subs.styles.lookup new_name = none := by
        rcases hx : subs.styles.lookup new_name with _ | s2
        · rfl
        · rw [hx] at hn; simp at hn
      have hne : new_name ≠ old_name := by
        intro he
        rw [he, hl] at hnone
        exact Option.noConfusion hnone
      rw [Prod.mk.injEq] at h
      obtain ⟨-, h2⟩ := h
      subst h2
      have g1 : ((dictSet subs.styles new_name sty).filter
          (fun p => p.1 != old_name)).lookup old_name = none := lookup_filter_ne _ _
      refine ⟨g1, ?_, rfl, ?_⟩
      · show ((dictSet subs.styles new_name sty).filter
            (fun p => p.1 != old_name)).lookup new_name = some sty
        rw [dictSet_not_mem hnone, List.filter_append]
        have hfe : ([(new_name, sty)].filter (fun p => p.1 != old_name)) = [(new_name, sty)] := by
          simp [List.filter_cons, hne]
        rw [hfe, lookup_append_none (lookup_filter_none _ hnone)]
        simp [List.lookup]
      · simp only [rename_style]
        rw [g1]

/-- Witness for C3 at the concrete rename "Default" → "Foo" of
`demoSubs`, followed by the failing "Default" → "Bar". -/
theorem rename_style_success_witness :
    demoSubsRenamed.styles.lookup "Default" = none ∧
    demoSubsRenamed.styles.lookup "Foo" = demoSubs.styles.lookup "Default" ∧
    demoSubsRenamed.events = demoSubs.events.map (fun line =>
      if line.style = "Default" then { line with style := "Foo" } else line) ∧
    rename_style demoSubsRenamed "Default" "Bar" =
      (Except.error SubsError.StyleNotFound, demoSubsRenamed) :=
  rename_style_success demoSubs demoSubsRenamed "Default" "Foo" "Bar" (by rfl)

/-- C4: `rename_style` raises `StyleNotFound` when `old` is absent,
`StyleNameConflict` when `new` is already a key, and `InvalidStyleName`
when `new` is empty or contains a comma; in each case the returned
document state is the unmodified input (styles, events and info). -/
theorem rename_style_errors (subs : SSAFile) (old_name new_name : String) :
    (subs.styles.lookup old_name = none →
      rename_style subs old_name new_name = (Except.error SubsError.StyleNotFound, subs)) ∧
    ((subs.styles.lookup old_name).isSome = true →
      (subs.styles.lookup new_name).isSome = true →
      rename_style subs old_name new_name = (Except.error SubsError.StyleNameConflict, subs)) ∧
    ((subs.styles.lookup old_name).isSome = true →
      subs.styles.lookup new_name = none →
      (new_name = "" ∨ new_name.data.contains ',' = true) →
      rename_style subs old_name new_name = (Except.error SubsError.InvalidStyleName, subs)) := by
  refine ⟨?_, ?_, ?_⟩
  · intro h
    simp [rename_style, h]
  · intro h1 h2
    obtain ⟨sty, hsty⟩ := Option.isSome_iff_exists.mp h1
    simp [rename_style, hsty, h2]
  · intro h1 h2 h3
    obtain ⟨sty, hsty⟩ := Option.isSome_iff_exists.mp h1
    have hv : is_valid_field_content new_name = false := by
      rcases h3 with h3 | h3
      · subst h3; rfl
      · simp only [is_valid_field_content, h3, Bool.not_true, Bool.and_false]
    simp [rename_style, hsty, h2, hv]

/-- Witness for C4: all three error cases at concrete inputs, each
returning the unmodified `demoSubs`. -/
theorem rename_style_errors_witness :
    rename_style demoSubs "Missing" "Foo" = (Except.error SubsError.StyleNotFound, demoSubs) ∧
    rename_style demoSubs "Default" "Default" =
      (Except.error SubsError.StyleNameConflict, demoSubs) ∧
    rename_style demoSubs "Default" "a,b" =
      (Except.error SubsError.InvalidStyleName, demoSubs) :=
  ⟨(rename_style_errors demoSubs "Missing" "Foo").1 (by rfl),
   (rename_style_errors demoSubs "Default" "Default").2.1 (by rfl) (by rfl),
   (rename_style_errors demoSubs "Default" "a,b").2.2 (by rfl) (by rfl) (Or.inr (by rfl))⟩

/-- C10: for any name present in the style table,
`rename_style name name` is not a successful no-op: the conflict check
fires before the validity check, so it raises `StyleNameConflict` and
leaves the document unchanged. -/
theorem rename_style_self (subs : SSAFile) (name : String)
    (h : (subs.styles.lookup name).isSome = true) :
    rename_style subs name name = (Except.error SubsError.StyleNameConflict, subs) := by
  obtain ⟨sty, hsty⟩ := Option.isSome_iff_exists.mp h
  simp [rename_style, hsty]

/-- Witness for C10 at the concrete `demoSubs` and its "Default" style. -/
theorem rename_style_self_witness :
    rename_style demoSubs "Default" "Default" =
      (Except.error SubsError.StyleNameConflict, demoSubs) :=
  rename_style_self demoSubs "Default" (by rfl)

/-- C6: `transform_framerate` raises `InvalidFramerate` whenever
`in_fps ≤ 0` or `out_fps ≤ 0`, and the returned document state is the
unmodified input — no event timestamp is mutated. -/
theorem transform_framerate_invalid (subs : SSAFile) (in_fps out_fps : ℚ)
    (h : in_fps ≤ 0 ∨ out_fps ≤ 0) :
    transform_framerate subs in_fps out_fps =
      (Except.error SubsError.InvalidFramerate, subs) := by
  unfold transform_framerate
  rw [if_pos h]

/-- Witness for C6 at `in_fps = -1`, `out_fps = 25`. -/
theorem transform_framerate_invalid_witness :
    transform_framerate demoSubs (-1) 25 =
      (Except.error SubsError.InvalidFramerate, demoSubs) :=
  transform_framerate_invalid demoSubs (-1) 25 (Or.inl (by norm_num))

/-- C9: shifting every event by `delta` milliseconds and then by
`-delta` restores the original document — every event's `start` and
`end` (and all other fields) are exactly as before. -/
theorem shift_then_unshift (subs : SSAFile) (delta : Int) :
    shift (shift subs delta) (-delta) = subs := by
  cases subs with
  | mk events styles info =>
    simp only [shift, List.map_map]
    congr 1
    induction events with
    | nil => rfl
    | cons e t ih =>
      cases e
      simp only [List.map_cons, List.cons.injEq] at ih ⊢
      refine ⟨?_, ih⟩
      simp [Function.comp, add_neg_cancel_right]

end Pysubs2
